import Mathlib

/-!
A verification development for the xad-forge backend adapters
(ForgeBackend, ForgeBackendCAPI, ForgeBackendAVX, ForgeBackendAVX_CAPI).

The adapters translate an XAD `JITGraph` into a Forge graph, run the
gradient-need propagation, compile a kernel, and drive execution of the
compiled kernel through a per-node value/gradient buffer.

The adapter code itself performs no floating-point arithmetic: `double`
values are only copied between structures, and the single numeric
inspection is `static_cast<uint32_t>` on a CONSTANT node's `imm` field.
We therefore model the `double` payload as `Rat` (an inert scalar with
decidable equality) and the cast as truncation, which agrees with the C
cast on the in-range integral values that occur for pool indices.

The Forge C API (graph construction, propagation, kernel, buffer) is an
external collaborator whose headers are not part of this repository.
Where the adapters call into it, the calls are modelled from the spec:
graph-construction calls append nodes and return sequential ids,
`forge_graph_propagate_gradients` performs the single forward sweep of
spec section 4.2, and kernel execution is kept opaque (a parameter).
Environment-driven configuration (custom backend load, instruction-set
override) is out of scope per the spec and modelled as the default path.
-/

/-- Model of the C `double` payload carried by nodes and pools. -/
abbrev Dbl := Rat

/-- Model of `static_cast<uint32_t>` applied to a `double` that holds a
constant-pool index (truncation; out-of-range or negative values are
undefined behaviour in C and may be mapped arbitrarily). -/
def castToUInt32 (d : Dbl) : Nat := (Rat.floor d).toNat

/-- Modelled from the spec: the opcode numbering lives in the external
`forge_c_api.h`; only the discrimination of INPUT and CONSTANT from the
remaining opcodes matters to the adapters. -/
def OP_INPUT : Nat := 1

/-- Modelled from the spec: the CONSTANT opcode (see `OP_INPUT`). -/
def OP_CONSTANT : Nat := 2

/-- Modelled from the spec: `FORGE_INSTRUCTION_SET_SSE2_SCALAR` selector. -/
def IS_SSE2_SCALAR : Nat := 0

/-- Modelled from the spec: `FORGE_INSTRUCTION_SET_AVX2_PACKED` selector. -/
def IS_AVX2_PACKED : Nat := 1

/-- Lane width of a kernel for an instruction-set selector (W = 1 for the
scalar set, W = 4 for AVX2). -/
def widthOf (instr : Nat) : Nat := if instr = IS_AVX2_PACKED then 4 else 1

/-- Modelled from the spec: `xad::JITNodeFlags::IsActive` is one bit of the
source node's flag word; we place it at bit 0. -/
def isActiveOf (flags : Nat) : Bool := flags % 2 = 1

/-- A source (XAD) graph node: `{op, a, b, c, imm, flags}`;
see `xad::JITGraph` nodes as consumed by the adapters. -/
structure JITNode where
  op : Nat
  a : Nat
  b : Nat
  c : Nat
  imm : Dbl
  flags : Nat
deriving DecidableEq

instance : Inhabited JITNode := ⟨⟨0, 0, 0, 0, 0, 0⟩⟩

/-- The source graph: node sequence, constant pool, differentiable-input
node indices and output node indices, as read by `compile()`. -/
structure JITGraph where
  nodes : List JITNode
  const_pool : List Dbl
  input_ids : List Nat
  output_ids : List Nat
deriving DecidableEq

/-- `jitGraph.nodeCount()`. -/
def JITGraph.nodeCount (g : JITGraph) : Nat := g.nodes.length

/-- A node of the target (Forge) graph, with the explicit
`needsGradient` flag. -/
structure ForgeNode where
  op : Nat
  a : Nat
  b : Nat
  c : Nat
  imm : Dbl
  isActive : Bool
  needsGradient : Bool
deriving DecidableEq

instance : Inhabited ForgeNode := ⟨⟨0, 0, 0, 0, 0, false, false⟩⟩

/-- The target (Forge) graph handle contents: nodes (index = id), the
Forge-side constant pool, marked outputs and marked diff inputs. -/
structure ForgeGraph where
  nodes : List ForgeNode
  constPool : List Dbl
  outputs : List Nat
  diffInputs : List Nat
deriving DecidableEq

/-- The empty graph produced by `forge_graph_create` (modelled from the
spec: creation failure is environmental and not modelled). -/
def ForgeGraph.empty : ForgeGraph := ⟨[], [], [], []⟩

/-- Modelled from the spec: `forge_graph_add_input` appends an input node
and returns its id (ids are sequential). -/
def addInput (fg : ForgeGraph) : ForgeGraph × Nat :=
  ({ fg with nodes := fg.nodes ++ [⟨OP_INPUT, 0, 0, 0, 0, true, false⟩] },
   fg.nodes.length)

/-- Modelled from the spec: `forge_graph_add_constant` appends a new
constant-pool entry and a node referencing it, returning the node id. -/
def addConstant (fg : ForgeGraph) (v : Dbl) : ForgeGraph × Nat :=
  ({ fg with
      constPool := fg.constPool ++ [v],
      nodes := fg.nodes ++
        [⟨OP_CONSTANT, 0, 0, 0, (fg.constPool.length : Dbl), false, false⟩] },
   fg.nodes.length)

/-- Modelled from the spec: `forge_graph_add_node(op,a,b,c,imm,isActive,
needsGradient)` appends a node and returns its id. -/
def addNode (fg : ForgeGraph) (op a b c : Nat) (imm : Dbl)
    (isActive needsGradient : Bool) : ForgeGraph × Nat :=
  ({ fg with nodes := fg.nodes ++ [⟨op, a, b, c, imm, isActive, needsGradient⟩] },
   fg.nodes.length)

/-- The operand ids of a target node: INPUT and CONSTANT nodes have none,
every other node reads its `a`, `b`, `c` fields. -/
def operandList (fn : ForgeNode) : List Nat :=
  if fn.op = OP_INPUT ∨ fn.op = OP_CONSTANT then [] else [fn.a, fn.b, fn.c]

/-- One forward sweep of the gradient-need propagation, modelled from the
spec (section 4.2): visiting ids in increasing order, a node's flag becomes
true iff it is a marked diff input or some operand's flag is true; operand
reads below the cursor see the already-updated flag, reads at or above the
cursor see the flag the node was created with. `fuel` counts the remaining
steps, `i` is the cursor, `acc` the updated flags of ids below `i`. -/
def sweepGo (diff : List Nat) (nodes : List ForgeNode) :
    Nat → Nat → List Bool → List Bool
  | 0, _, acc => acc
  | fuel + 1, i, acc =>
    if i < nodes.length then
      sweepGo diff nodes fuel (i + 1)
        (acc ++ [decide (i ∈ diff) ||
          (operandList (nodes.getD i default)).any (fun j =>
            if j < i then acc.getD j false
            else (nodes.getD j default).needsGradient)])
    else acc

/-- The full propagation sweep over a node list. -/
def sweepFlags (diff : List Nat) (nodes : List ForgeNode) : List Bool :=
  sweepGo diff nodes nodes.length 0 []

/-- Write a list of flags back into the nodes, position by position. -/
def setFlags : List ForgeNode → List Bool → List ForgeNode
  | [], _ => []
  | nds, [] => nds
  | nd :: nds, f :: fs => { nd with needsGradient := f } :: setFlags nds fs

/-- Modelled from the spec: `forge_graph_propagate_gradients` runs the
single forward sweep of section 4.2 over the graph's nodes. -/
def propagateGradients (fg : ForgeGraph) : ForgeGraph :=
  { fg with nodes := setFlags fg.nodes (sweepFlags fg.diffInputs fg.nodes) }

/-- Modelled from the spec: `forge_graph_mark_output` records an output id. -/
def markOutput (fg : ForgeGraph) (id : Nat) : ForgeGraph :=
  { fg with outputs := fg.outputs ++ [id] }

/-- Modelled from the spec: `forge_graph_mark_diff_input` records a
differentiable-input id. -/
def markDiffInput (fg : ForgeGraph) (id : Nat) : ForgeGraph :=
  { fg with diffInputs := fg.diffInputs ++ [id] }

/-- The local state of the translation loop in `compile()`: the Forge
graph under construction, the `inputIds_` list and the `nodeIdMap`. -/
structure TransState where
  fg : ForgeGraph
  inputIds : List Nat
  nodeIdMap : List Nat
deriving DecidableEq

/-- The constant pre-registration loop of `compile()`: one
`forge_graph_add_constant` per pool entry, accumulating `constNodeIds`
(ForgeBackend.hpp lines 155-164 and its CAPI/AVX twins). -/
def preReg : List Dbl → ForgeGraph → List Nat → ForgeGraph × List Nat
  | [], fg, acc => (fg, acc)
  | v :: rest, fg, acc =>
    let p := addConstant fg v
    preReg rest p.1 (acc ++ [p.2])

/-- The sequential node pass of `compile()` (ForgeBackend.hpp lines
170-208): INPUT nodes are added and registered in `inputIds`; CONSTANT
nodes resolve through `constNodeIds` after the pool-index bound check
(failure carries the state at the throw); all other nodes remap an
operand through `nodeIdMap` only when it is `< i` and otherwise pass it
through unchanged, and are created with `needsGradient = false`. -/
def transNodes (constIds : List Nat) :
    List JITNode → Nat → TransState → Except TransState TransState
  | [], _, st => .ok st
  | nd :: rest, i, st =>
    if nd.op = OP_INPUT then
      let p := addInput st.fg
      transNodes constIds rest (i + 1)
        ⟨p.1, st.inputIds ++ [p.2], st.nodeIdMap ++ [p.2]⟩
    else if nd.op = OP_CONSTANT then
      let cIdx := castToUInt32 nd.imm
      if cIdx < constIds.length then
        transNodes constIds rest (i + 1)
          ⟨st.fg, st.inputIds, st.nodeIdMap ++ [constIds.getD cIdx 0]⟩
      else .error st
    else
      let a := if nd.a < i then st.nodeIdMap.getD nd.a 0 else nd.a
      let b := if nd.b < i then st.nodeIdMap.getD nd.b 0 else nd.b
      let c := if nd.c < i then st.nodeIdMap.getD nd.c 0 else nd.c
      let p := addNode st.fg nd.op a b c nd.imm (isActiveOf nd.flags) false
      transNodes constIds rest (i + 1) ⟨p.1, st.inputIds, st.nodeIdMap ++ [p.2]⟩

/-- The whole graph-translation phase of the pre-registering backends
(ForgeBackend, ForgeBackendCAPI, ForgeBackendAVX): constant
pre-registration followed by the sequential node pass, starting from a
fresh Forge graph and cleared `inputIds_`. -/
def translateGraph (g : JITGraph) : Except TransState TransState :=
  let pre := preReg g.const_pool ForgeGraph.empty []
  transNodes pre.2 g.nodes 0 ⟨pre.1, [], []⟩

/-- Output marking (ForgeBackend.hpp lines 211-219): each source output
index is resolved through `nodeIdMap` (an out-of-range index is an
unchecked `std::vector` access, i.e. undefined behaviour, modelled as
`none`), pushed onto `outputIds_` and marked on the graph. -/
def markOutputs (map : List Nat) :
    List Nat → ForgeGraph → List Nat → Option (ForgeGraph × List Nat)
  | [], fg, outIds => some (fg, outIds)
  | x :: rest, fg, outIds =>
    match map[x]? with
    | none => none
    | some fid => markOutputs map rest (markOutput fg fid) (outIds ++ [fid])

/-- Diff-input marking (ForgeBackend.hpp lines 222-228): each declared
differentiable input is resolved through `nodeIdMap` (out-of-range is
undefined behaviour, modelled as `none`) and marked on the graph. -/
def markDiffInputs (map : List Nat) :
    List Nat → ForgeGraph → Option ForgeGraph
  | [], fg => some fg
  | x :: rest, fg =>
    match map[x]? with
    | none => none
    | some fid => markDiffInputs map rest (markDiffInput fg fid)

/-- The Forge configuration: fast/default optimization preset and the
selected instruction set. -/
structure Config where
  fast : Bool
  instructionSet : Nat
deriving DecidableEq

/-- Modelled from the spec: the kernel compiled by `forge_compile` is
opaque; we record what it was built from. -/
structure Kernel where
  graph : ForgeGraph
  config : Config
deriving DecidableEq

/-- The execution buffer: per-target-node value and gradient lane groups
of width `width`. -/
structure Buffer where
  width : Nat
  values : List (List Dbl)
  gradients : List (List Dbl)
deriving DecidableEq

/-- Modelled from the spec: `forge_buffer_create` sizes a zeroed buffer
for the graph and the kernel's lane width. -/
def bufferCreate (fg : ForgeGraph) (w : Nat) : Buffer :=
  ⟨w, fg.nodes.map (fun _ => List.replicate w 0),
      fg.nodes.map (fun _ => List.replicate w 0)⟩

/-- The adapter object's fields shared by ForgeBackend, ForgeBackendAVX
and (through `AdapterC`) ForgeBackendCAPI: the four native handles and
the declared input/output id lists. -/
structure Adapter where
  useOptimizations_ : Bool
  graph_ : Option ForgeGraph
  config_ : Option Config
  kernel_ : Option Kernel
  buffer_ : Option Buffer
  inputIds_ : List Nat
  outputIds_ : List Nat
deriving DecidableEq

/-- A freshly constructed adapter: null handles, empty id lists. -/
def Adapter.init : Adapter := ⟨false, none, none, none, none, [], []⟩

/-- `cleanup()`: destroy buffer, kernel, config, graph (nulling the
handles); the id lists are not touched. -/
def cleanup (ad : Adapter) : Adapter :=
  { ad with graph_ := none, config_ := none, kernel_ := none, buffer_ := none }

/-- `reset()`: cleanup plus clearing both id lists. -/
def Adapter.reset (ad : Adapter) : Adapter :=
  { cleanup ad with inputIds_ := [], outputIds_ := [] }

/-- The state left in a move-from source: handles nulled by the move
constructor; the moved-from `std::vector`s are modelled as empty. -/
def movedFrom (ad : Adapter) : Adapter :=
  { ad with graph_ := none, config_ := none, kernel_ := none,
            buffer_ := none, inputIds_ := [], outputIds_ := [] }

/-- Result of a `compile()` call: success with the new object state, a
thrown exception together with the object state at the throw, or
undefined behaviour (an unchecked out-of-range vector access). -/
inductive CompileOutcome where
  | ok (ad : Adapter)
  | thrown (ad : Adapter)
  | ub
deriving DecidableEq

/-- The shared body of `ForgeBackend::compile`, `ForgeBackendAVX::compile`
and (behind the recompilation guard) `ForgeBackendCAPI::compile`: cleanup,
graph creation, translation, output and diff-input marking, gradient
propagation, config/kernel/buffer creation. The variants differ only in
the instruction-set selector. On a translation failure the object holds
the partially built graph and `inputIds_` and the stale `outputIds_`
(cleared only later, at output marking). -/
def compileFull (instr : Nat) (ad : Adapter) (g : JITGraph) : CompileOutcome :=
  let s0 := cleanup ad
  match translateGraph g with
  | .error ts =>
    .thrown { s0 with graph_ := some ts.fg, inputIds_ := ts.inputIds }
  | .ok ts =>
    match markOutputs ts.nodeIdMap g.output_ids ts.fg [] with
    | none => .ub
    | some q =>
      match markDiffInputs ts.nodeIdMap g.input_ids q.1 with
      | none => .ub
      | some fg2 =>
        let fg3 := propagateGradients fg2
        let cfg : Config := ⟨ad.useOptimizations_, instr⟩
        .ok { useOptimizations_ := ad.useOptimizations_,
              graph_ := some fg3,
              config_ := some cfg,
              kernel_ := some ⟨fg3, cfg⟩,
              buffer_ := some (bufferCreate fg3 (widthOf instr)),
              inputIds_ := ts.inputIds,
              outputIds_ := q.2 }

/-- `ForgeBackendCAPI`'s extra field: the node count of the last
successfully compiled graph, driving the recompilation guard. -/
structure AdapterC where
  base : Adapter
  lastNodeCount_ : Nat
deriving DecidableEq

/-- Outcome of `ForgeBackendCAPI::compile`. -/
inductive CompileOutcomeC where
  | ok (ad : AdapterC)
  | thrown (ad : AdapterC)
  | ub
deriving DecidableEq

/-- The guard-free body of `ForgeBackendCAPI::compile`: the shared
compilation pipeline with the SSE2 scalar instruction set, recording the
node count on success and leaving it unchanged on a throw. -/
def capiCompileBody (ad : AdapterC) (g : JITGraph) : CompileOutcomeC :=
  match compileFull IS_SSE2_SCALAR ad.base g with
  | .ok s => .ok ⟨s, g.nodeCount⟩
  | .thrown s => .thrown ⟨s, ad.lastNodeCount_⟩
  | .ub => .ub

/-- `ForgeBackendCAPI::compile` (lines 115-245): if a kernel exists and
the recorded node count matches the new graph's node count, the call is
a no-op; otherwise the full pipeline runs. -/
def compileCAPI (ad : AdapterC) (g : JITGraph) : CompileOutcomeC :=
  if ad.base.kernel_.isSome && (ad.lastNodeCount_ == g.nodeCount) then .ok ad
  else capiCompileBody ad g

/-- `ForgeBackendCAPI::reset` (lines 322-328): cleanup, clear the id
lists, zero the recorded node count. -/
def resetCAPI (ad : AdapterC) : AdapterC := ⟨ad.base.reset, 0⟩

/-- `ForgeBackendAVX_CAPI::compile` (lines 116-178): every source node,
INPUT and CONSTANT included, is forwarded to `forge_graph_add_node` with
its raw operand indices and `needsGradient = 0`; no constant
pre-registration, no pool-index validation, no `nodeIdMap`. -/
def avxCapiNodes : List JITNode → ForgeGraph → List Nat → ForgeGraph × List Nat
  | [], fg, inIds => (fg, inIds)
  | nd :: rest, fg, inIds =>
    let p := addNode fg nd.op nd.a nd.b nd.c nd.imm (isActiveOf nd.flags) false
    avxCapiNodes rest p.1 (if nd.op = OP_INPUT then inIds ++ [p.2] else inIds)

/-- `ForgeBackendAVX_CAPI::compile`: cleanup, the raw node pass, output
and diff-input marking with unmapped source indices, then config, kernel
and buffer creation — with no call to `forge_graph_propagate_gradients`. -/
def compileAVX_CAPI (ad : Adapter) (g : JITGraph) : CompileOutcome :=
  let s0 := cleanup ad
  let p := avxCapiNodes g.nodes ForgeGraph.empty []
  let fg1 := { p.1 with outputs := p.1.outputs ++ g.output_ids }
  let fg2 := { fg1 with diffInputs := fg1.diffInputs ++ g.input_ids }
  let cfg : Config := ⟨s0.useOptimizations_, IS_AVX2_PACKED⟩
  .ok { useOptimizations_ := s0.useOptimizations_,
        graph_ := some fg2,
        config_ := some cfg,
        kernel_ := some ⟨fg2, cfg⟩,
        buffer_ := some (bufferCreate fg2 (widthOf IS_AVX2_PACKED)),
        inputIds_ := p.2,
        outputIds_ := g.output_ids }

/-- Modelled from the spec: `forge_buffer_clear_gradients` zeroes every
gradient lane. -/
def clearGradients (b : Buffer) : Buffer :=
  { b with gradients := b.gradients.map (fun l => l.map (fun _ => 0)) }

/-- Modelled from the spec: `forge_buffer_get_lanes` reads a node's W
value lanes. -/
def getLanes (b : Buffer) (id : Nat) : List Dbl :=
  b.values.getD id (List.replicate b.width 0)

/-- Modelled from the spec: `forge_buffer_get_gradient_lanes` for a single
node id reads its W gradient lanes. -/
def getGradientLanes (b : Buffer) (id : Nat) : List Dbl :=
  b.gradients.getD id (List.replicate b.width 0)

/-- Modelled from the spec: `forge_buffer_set_lanes` writes a node's W
value lanes. -/
def setLanes (b : Buffer) (id : Nat) (vals : List Dbl) : Buffer :=
  { b with values := b.values.set id vals }

/-- Modelled from the spec: `forge_buffer_set_value` writes a node's
scalar value (the single lane of a W = 1 buffer). -/
def setValue (b : Buffer) (id : Nat) (v : Dbl) : Buffer :=
  { b with values := b.values.set id [v] }

/-- Modelled from the spec: `forge_buffer_get_value` reads a node's scalar
value. -/
def getValue (b : Buffer) (id : Nat) : Dbl :=
  (b.values.getD id []).getD 0 0

/-- Modelled from the spec: `forge_buffer_get_gradient` reads a node's
scalar accumulated gradient. -/
def getGradient (b : Buffer) (id : Nat) : Dbl :=
  (b.gradients.getD id []).getD 0 0

/-- Write the given scalar inputs into the buffer at the declared input
ids, in declared order. -/
def setValuesAt (b : Buffer) : List Nat → List Dbl → Buffer
  | _, [] => b
  | [], _ => b
  | id :: ids, v :: vs => setValuesAt (setValue b id v) ids vs

/-- Result of a data operation that mutates the adapter (`setInput`):
success with the new state, a thrown error, or undefined behaviour. -/
inductive StepResult where
  | ok (ad : Adapter)
  | thrown (ad : Adapter)
  | ub
deriving DecidableEq

/-- `ForgeBackend::setInput` (lines 284-289): an index at or beyond the
declared input count throws ("Input index out of range", leaving the
object untouched); otherwise the W lanes are written through a buffer
handle that is null when uncompiled (undefined behaviour). -/
def setInput (ad : Adapter) (inputIndex : Nat) (values : List Dbl) : StepResult :=
  if ad.inputIds_.length ≤ inputIndex then .thrown ad
  else
    match ad.buffer_ with
    | none => .ub
    | some b =>
      .ok { ad with buffer_ := some (setLanes b (ad.inputIds_.getD inputIndex 0) values) }

/-- Result of an execution call: the written output lane groups and input
gradient lane groups plus the buffer after execution, a thrown error, or
undefined behaviour. -/
inductive RunResult where
  | ok (outputs : List (List Dbl)) (inputGradients : List (List Dbl)) (buf : Buffer)
  | thrown
  | ub
deriving DecidableEq

/-- `ForgeBackend::forward` (lines 294-310): throws when uncompiled;
otherwise clears gradients, executes the kernel (opaque, passed as
`exec`), and reads each declared output's lanes in order. -/
def Adapter.forward (exec : Buffer → Buffer) (ad : Adapter) : RunResult :=
  match ad.kernel_, ad.buffer_ with
  | some _, some b =>
    let b2 := exec (clearGradients b)
    .ok (ad.outputIds_.map (getLanes b2)) [] b2
  | _, _ => .thrown

/-- `ForgeBackend::forwardAndBackward` (lines 315-337): throws when
uncompiled; otherwise clears gradients, executes once, reads every
declared output's lanes in order and every declared input's gradient
lanes in declared order. -/
def forgeForwardAndBackward (exec : Buffer → Buffer) (ad : Adapter) : RunResult :=
  match ad.kernel_, ad.buffer_ with
  | some _, some b =>
    let b2 := exec (clearGradients b)
    .ok (ad.outputIds_.map (getLanes b2)) (ad.inputIds_.map (getGradientLanes b2)) b2
  | _, _ => .thrown

/-- `ForgeBackendAVX::forwardAndBackward` (lines 283-308), shared by
`ForgeBackendAVX_CAPI` (lines 207-232): throws when uncompiled; throws
when the caller's gradient storage count differs from the declared input
count; ignores `outputAdjoints`; clears gradients, executes once, then
unconditionally reads the lanes of `outputIds_[0]` (undefined behaviour
when no output is declared) and each declared input's gradient lanes. -/
def avxForwardAndBackward (exec : Buffer → Buffer) (ad : Adapter)
    (outputAdjoints : List Dbl) (gradStorageCount : Nat) : RunResult :=
  match ad.kernel_, ad.buffer_ with
  | some _, some b =>
    if gradStorageCount ≠ ad.inputIds_.length then .thrown
    else
      let b2 := exec (clearGradients b)
      match ad.outputIds_[0]? with
      | none => .ub
      | some oid =>
        .ok [getLanes b2 oid] (ad.inputIds_.map (getGradientLanes b2)) b2
  | _, _ => .thrown

/-- Result of the scalar CAPI execution calls: scalar outputs and scalar
input adjoints plus the buffer after execution, or a thrown error. -/
inductive RunResultC where
  | ok (outputs : List Dbl) (inputAdjoints : List Dbl) (buf : Buffer)
  | thrown
deriving DecidableEq

/-- `ForgeBackendCAPI::forwardAndBackward` (lines 280-320): throws when
uncompiled; checks the input count and the output(-adjoint) count against
the declared lists; ignores the `outputAdjoints` values ("Forge
auto-seeds to 1.0"); writes the inputs, clears gradients, executes once,
reads every output value and every input's accumulated gradient. -/
def capiForwardAndBackward (exec : Buffer → Buffer) (ad : AdapterC)
    (inputs : List Dbl) (outputAdjoints : List Dbl) : RunResultC :=
  match ad.base.kernel_, ad.base.buffer_ with
  | some _, some b =>
    if inputs.length ≠ ad.base.inputIds_.length then .thrown
    else if outputAdjoints.length ≠ ad.base.outputIds_.length then .thrown
    else
      let b1 := setValuesAt b ad.base.inputIds_ inputs
      let b2 := exec (clearGradients b1)
      .ok (ad.base.outputIds_.map (getValue b2))
          (ad.base.inputIds_.map (getGradient b2)) b2
  | _, _ => .thrown

/-- The source-graph topological-order invariant (spec section 8): every
operand index of a non-INPUT, non-CONSTANT node is below the node's own
index. -/
def sourceTopo (g : JITGraph) : Prop :=
  ∀ i, i < g.nodes.length →
    (g.nodes.getD i default).op ≠ OP_INPUT →
    (g.nodes.getD i default).op ≠ OP_CONSTANT →
    (g.nodes.getD i default).a < i ∧ (g.nodes.getD i default).b < i ∧
      (g.nodes.getD i default).c < i

instance (g : JITGraph) : Decidable (sourceTopo g) := by
  unfold sourceTopo; infer_instance

/-- Topological order of a Forge node list: every operand id of every
node is below the node's own id. -/
def topoFG (nodes : List ForgeNode) : Prop :=
  ∀ j, j < nodes.length → ∀ x ∈ operandList (nodes.getD j default), x < j

instance (nodes : List ForgeNode) : Decidable (topoFG nodes) := by
  unfold topoFG; infer_instance

/-- The gradient-need fixpoint (spec section 8): a node needs a gradient
iff it is a marked diff input or some operand needs one. -/
def gradFixpoint (fg : ForgeGraph) : Prop :=
  ∀ j, j < fg.nodes.length →
    (fg.nodes.getD j default).needsGradient =
      (decide (j ∈ fg.diffInputs) ||
        (operandList (fg.nodes.getD j default)).any
          (fun x => (fg.nodes.getD x default).needsGradient))

instance (fg : ForgeGraph) : Decidable (gradFixpoint fg) := by
  unfold gradFixpoint; infer_instance

/-! Helper lemmas about lists. -/

theorem anyCongr {l : List Nat} {f g : Nat → Bool} (h : ∀ x ∈ l, f x = g x) :
    l.any f = l.any g := by
  induction l with
  | nil => rfl
  | cons a l ih =>
    simp only [List.any_cons]
    rw [h a (by simp), ih (fun x hx => h x (by simp [hx]))]

theorem getD_of_getElem? {l : List Nat} {i x : Nat} (d : Nat)
    (h : l[i]? = some x) : l.getD i d = x := by
  rw [List.getD_eq_getElem?_getD, h]; rfl

theorem getElem?_append_len {α : Type} (l : List α) (x : α) :
    (l ++ [x])[l.length]? = some x := by
  rw [List.getElem?_append_right (Nat.le_refl _)]
  simp

theorem getD_append_length {α : Type} (l : List α) (x d : α) {n : Nat}
    (h : l.length = n) : (l ++ [x]).getD n d = x := by
  subst h
  rw [List.getD_eq_getElem?_getD, getElem?_append_len]
  rfl

/-! Lemmas about the propagation sweep. -/

theorem sweepGo_stable (d : List Nat) (ns : List ForgeNode) :
    ∀ fuel i acc k, k < acc.length →
      (sweepGo d ns fuel i acc).getD k false = acc.getD k false := by
  intro fuel
  induction fuel with
  | zero => intro i acc k _; rfl
  | succ n ih =>
    intro i acc k hk
    unfold sweepGo
    by_cases h : i < ns.length
    · simp only [h, if_true]
      rw [ih (i + 1) _ k (by simp; omega)]
      rw [List.getD_eq_getElem?_getD, List.getElem?_append_left hk]
      exact (List.getD_eq_getElem?_getD acc k false).symm
    · simp [h]

theorem sweepGo_length (d : List Nat) (ns : List ForgeNode) :
    ∀ fuel i acc, i + fuel = ns.length → acc.length = i →
      (sweepGo d ns fuel i acc).length = ns.length := by
  intro fuel
  induction fuel with
  | zero => intro i acc h1 h2; simpa [sweepGo, h2] using h1
  | succ n ih =>
    intro i acc h1 h2
    unfold sweepGo
    have h : i < ns.length := by omega
    simp only [h, if_true]
    rw [ih (i + 1) _ (by omega) (by simp [h2])]

theorem sweepGo_fix (d : List Nat) (ns : List ForgeNode) (topo : topoFG ns) :
    ∀ fuel i acc, i + fuel = ns.length → acc.length = i →
      ∀ k, i ≤ k → k < ns.length →
        (sweepGo d ns fuel i acc).getD k false =
          (decide (k ∈ d) ||
            (operandList (ns.getD k default)).any
              (fun x => (sweepGo d ns fuel i acc).getD x false)) := by
  intro fuel
  induction fuel with
  | zero => intro i acc h1 _ k hik hk; omega
  | succ n ih =>
    intro i acc h1 h2 k hik hk
    have hi : i < ns.length := by omega
    unfold sweepGo
    simp only [hi, if_true]
    rcases Nat.eq_or_lt_of_le hik with heq | hlt
    · subst heq
      rw [sweepGo_stable d ns n (i + 1) _ i (by simp [h2])]
      rw [getD_append_length acc _ false h2]
      congr 1
      refine anyCongr ?_
      intro x hx
      have hxk : x < i := topo i hi x hx
      have hxa : x < acc.length := by omega
      rw [if_pos hxk,
        sweepGo_stable d ns n (i + 1) _ x (by simp [h2]; omega),
        List.getD_eq_getElem?_getD (acc ++ _), List.getD_eq_getElem?_getD acc,
        List.getElem?_append_left hxa]
    · exact ih (i + 1) _ (by omega) (by simp [h2]) k hlt hk

theorem setFlags_length : ∀ (nds : List ForgeNode) (fs : List Bool),
    (setFlags nds fs).length = nds.length := by
  intro nds
  induction nds with
  | nil => intro fs; cases fs <;> rfl
  | cons nd nds ih =>
    intro fs
    cases fs with
    | nil => rfl
    | cons f fs => simp [setFlags, ih]

theorem setFlags_getD : ∀ (nds : List ForgeNode) (fs : List Bool) (j : Nat),
    j < nds.length → j < fs.length →
      (setFlags nds fs).getD j default =
        { nds.getD j default with needsGradient := fs.getD j false } := by
  intro nds
  induction nds with
  | nil => intro fs j h _; simp at h
  | cons nd nds ih =>
    intro fs j h1 h2
    cases fs with
    | nil => simp at h2
    | cons f fs =>
      cases j with
      | zero => rfl
      | succ m =>
        simp only [setFlags, List.getD_cons_succ]
        exact ih fs m (by simpa using h1) (by simpa using h2)

/-- After the propagation sweep, a topologically ordered graph satisfies
the gradient-need fixpoint: a node's flag holds iff the node is a marked
diff input or some operand's flag holds. -/
theorem propagate_fixpoint (fg : ForgeGraph) (h : topoFG fg.nodes) :
    gradFixpoint (propagateGradients fg) := by
  intro j hj
  have hlen : (sweepFlags fg.diffInputs fg.nodes).length = fg.nodes.length :=
    sweepGo_length _ _ fg.nodes.length 0 [] (by omega) rfl
  have hjn : j < fg.nodes.length := by
    simpa [propagateGradients, setFlags_length] using hj
  have hget : ∀ x, x < fg.nodes.length →
      (propagateGradients fg).nodes.getD x default =
        { fg.nodes.getD x default with
            needsGradient := (sweepFlags fg.diffInputs fg.nodes).getD x false } := by
    intro x hx
    exact setFlags_getD fg.nodes _ x hx (by omega)
  rw [hget j hjn]
  have hfix := sweepGo_fix fg.diffInputs fg.nodes h fg.nodes.length 0 []
    (by omega) rfl j (Nat.zero_le j) hjn
  have hops : operandList
      { fg.nodes.getD j default with
          needsGradient := (sweepFlags fg.diffInputs fg.nodes).getD j false } =
      operandList (fg.nodes.getD j default) := rfl
  simp only [hops]
  have hdiff : (propagateGradients fg).diffInputs = fg.diffInputs := rfl
  rw [hdiff]
  calc ({ fg.nodes.getD j default with
            needsGradient := (sweepFlags fg.diffInputs fg.nodes).getD j false
          : ForgeNode }).needsGradient
      = (sweepFlags fg.diffInputs fg.nodes).getD j false := rfl
    _ = (decide (j ∈ fg.diffInputs) ||
          (operandList (fg.nodes.getD j default)).any
            (fun x => (sweepFlags fg.diffInputs fg.nodes).getD x false)) := hfix
    _ = (decide (j ∈ fg.diffInputs) ||
          (operandList (fg.nodes.getD j default)).any
            (fun x => ((propagateGradients fg).nodes.getD x default).needsGradient)) := by
        congr 1
        refine anyCongr ?_
        intro x hx
        have hxj : x < j := h j hjn x hx
        rw [hget x (by omega)]

/-! Lemmas about the sequential node pass. -/

/-- Shape facts about a successful node pass: the map grows by one entry
per source node, existing map and graph entries are untouched, and the
pass never changes the pool, outputs or diff inputs. -/
structure TransOut (st ts : TransState) (n : Nat) : Prop where
  mapLen : ts.nodeIdMap.length = st.nodeIdMap.length + n
  mapPref : ∀ k, k < st.nodeIdMap.length → ts.nodeIdMap[k]? = st.nodeIdMap[k]?
  fgPref : ∀ k, k < st.fg.nodes.length → ts.fg.nodes[k]? = st.fg.nodes[k]?
  fgMono : st.fg.nodes.length ≤ ts.fg.nodes.length
  poolEq : ts.fg.constPool = st.fg.constPool
  outEq : ts.fg.outputs = st.fg.outputs
  diffEq : ts.fg.diffInputs = st.fg.diffInputs

theorem transNodes_out (cids : List Nat) :
    ∀ (rest : List JITNode) (i : Nat) (st ts : TransState),
      transNodes cids rest i st = .ok ts → TransOut st ts rest.length := by
  intro rest
  induction rest with
  | nil =>
    intro i st ts h
    cases h
    exact ⟨by simp, fun k _ => rfl, fun k _ => rfl, Nat.le_refl _, rfl, rfl, rfl⟩
  | cons nd rest ih =>
    intro i st ts h
    by_cases h1 : nd.op = OP_INPUT
    · simp only [transNodes, h1, if_true] at h
      have o := ih (i + 1) _ ts h
      refine ⟨?_, ?_, ?_, ?_, ?_, ?_, ?_⟩
      · rw [o.mapLen]; simp [addInput]; omega
      · intro k hk
        rw [o.mapPref k (by simp; omega)]
        exact List.getElem?_append_left hk
      · intro k hk
        rw [o.fgPref k (by simp [addInput]; omega)]
        exact List.getElem?_append_left hk
      · refine Nat.le_trans ?_ o.fgMono
        simp [addInput]
      · rw [o.poolEq]; rfl
      · rw [o.outEq]; rfl
      · rw [o.diffEq]; rfl
    · by_cases h2 : nd.op = OP_CONSTANT
      · simp only [transNodes] at h
        rw [if_neg h1, if_pos h2] at h
        by_cases h3 : castToUInt32 nd.imm < cids.length
        · rw [if_pos h3] at h
          have o := ih (i + 1) _ ts h
          refine ⟨?_, ?_, ?_, o.fgMono, o.poolEq, o.outEq, o.diffEq⟩
          · rw [o.mapLen]; simp; omega
          · intro k hk
            rw [o.mapPref k (by simp; omega)]
            exact List.getElem?_append_left hk
          · exact o.fgPref
        · rw [if_neg h3] at h
          cases h
      · simp only [transNodes, h1, if_false, h2, if_false] at h
        have o := ih (i + 1) _ ts h
        refine ⟨?_, ?_, ?_, ?_, ?_, ?_, ?_⟩
        · rw [o.mapLen]; simp; omega
        · intro k hk
          rw [o.mapPref k (by simp; omega)]
          exact List.getElem?_append_left hk
        · intro k hk
          rw [o.fgPref k (by simp [addNode]; omega)]
          exact List.getElem?_append_left hk
        · refine Nat.le_trans ?_ o.fgMono
          simp [addNode]
        · rw [o.poolEq]; rfl
        · rw [o.outEq]; rfl
        · rw [o.diffEq]; rfl

/-- Every id recorded by a successful node pass points below the final
graph size, provided the incoming map and the pre-registered constant
ids already do. -/
theorem transNodes_bound (cids : List Nat) :
    ∀ (rest : List JITNode) (i : Nat) (st ts : TransState),
      transNodes cids rest i st = .ok ts →
      (∀ x ∈ st.nodeIdMap, x < st.fg.nodes.length) →
      (∀ x ∈ cids, x < st.fg.nodes.length) →
      ∀ x ∈ ts.nodeIdMap, x < ts.fg.nodes.length := by
  intro rest
  induction rest with
  | nil =>
    intro i st ts h hb _
    cases h
    exact hb
  | cons nd rest ih =>
    intro i st ts h hb hc
    by_cases h1 : nd.op = OP_INPUT
    · simp only [transNodes, h1, if_true] at h
      refine ih (i + 1) _ ts h ?_ ?_
      · intro x hx
        simp only [addInput, List.length_append, List.length_cons, List.length_nil]
        rcases List.mem_append.mp hx with hx | hx
        · have := hb x hx; omega
        · simp [addInput] at hx; omega
      · intro x hx
        have := hc x hx
        simp only [addInput, List.length_append, List.length_cons, List.length_nil]
        omega
    · by_cases h2 : nd.op = OP_CONSTANT
      · simp only [transNodes] at h
        rw [if_neg h1, if_pos h2] at h
        by_cases h3 : castToUInt32 nd.imm < cids.length
        · rw [if_pos h3] at h
          refine ih (i + 1) _ ts h ?_ hc
          intro x hx
          rcases List.mem_append.mp hx with hx | hx
          · exact hb x hx
          · simp at hx
            subst hx
            refine hc _ ?_
            simp only [List.getElem?_eq_getElem h3, Option.getD_some]
            exact List.getElem_mem h3
        · rw [if_neg h3] at h
          cases h
      · simp only [transNodes, h1, if_false, h2, if_false] at h
        refine ih (i + 1) _ ts h ?_ ?_
        · intro x hx
          simp only [addNode, List.length_append, List.length_cons, List.length_nil]
          rcases List.mem_append.mp hx with hx | hx
          · have := hb x hx; omega
          · simp [addNode] at hx; omega
        · intro x hx
          have := hc x hx
          simp only [addNode, List.length_append, List.length_cons, List.length_nil]
          omega

/-- The node pass never fails when every CONSTANT node's pool index is in
range of the pre-registered constant ids. -/
theorem transNodes_progress (cids : List Nat) :
    ∀ (rest : List JITNode) (i : Nat) (st : TransState),
      (∀ (k : Nat) (nd : JITNode), rest[k]? = some nd → nd.op = OP_CONSTANT →
        castToUInt32 nd.imm < cids.length) →
      ∃ ts, transNodes cids rest i st = .ok ts := by
  intro rest
  induction rest with
  | nil => intro i st _; exact ⟨st, rfl⟩
  | cons nd rest ih =>
    intro i st hgood
    have htail : ∀ (k : Nat) (nd' : JITNode), rest[k]? = some nd' →
        nd'.op = OP_CONSTANT → castToUInt32 nd'.imm < cids.length := by
      intro k nd' hk
      exact hgood (k + 1) nd' (by rw [List.getElem?_cons_succ]; exact hk)
    by_cases h1 : nd.op = OP_INPUT
    · simp only [transNodes, h1, if_true]
      exact ih (i + 1) _ htail
    · by_cases h2 : nd.op = OP_CONSTANT
      · have h3 : castToUInt32 nd.imm < cids.length :=
          hgood 0 nd List.getElem?_cons_zero h2
        simp only [transNodes]
        rw [if_neg h1, if_pos h2, if_pos h3]
        exact ih (i + 1) _ htail
      · simp only [transNodes, h1, if_false, h2, if_false]
        exact ih (i + 1) _ htail

theorem getD_pref {l1 l2 : List Nat}
    (h : ∀ k, k < l1.length → l2[k]? = l1[k]?) {x : Nat} (hx : x < l1.length)
    (d : Nat) : l2.getD x d = l1.getD x d := by
  rw [List.getD_eq_getElem?_getD, List.getD_eq_getElem?_getD, h x hx]

/-- Per-node characterization of a successful node pass: an INPUT source
node maps to a fresh target input node; a CONSTANT source node maps to
the pre-registered constant id for its (validated) pool index; any other
source node maps to a fresh target node whose operands are remapped
through the final map exactly when they are below the source index and
passed through unchanged otherwise, created with `needsGradient = false`. -/
theorem transNodes_char (cids : List Nat) :
    ∀ (rest : List JITNode) (i : Nat) (st ts : TransState),
      transNodes cids rest i st = .ok ts →
      st.nodeIdMap.length = i →
      ∀ (k : Nat) (nd : JITNode), rest[k]? = some nd →
        (nd.op = OP_INPUT →
          ∃ fid, ts.nodeIdMap[i + k]? = some fid ∧
            ts.fg.nodes[fid]? = some ⟨OP_INPUT, 0, 0, 0, 0, true, false⟩) ∧
        (nd.op = OP_CONSTANT →
          castToUInt32 nd.imm < cids.length ∧
          ts.nodeIdMap[i + k]? = some (cids.getD (castToUInt32 nd.imm) 0)) ∧
        (nd.op ≠ OP_INPUT → nd.op ≠ OP_CONSTANT →
          ∃ fid, ts.nodeIdMap[i + k]? = some fid ∧
            ts.fg.nodes[fid]? = some
              ⟨nd.op,
               if nd.a < i + k then ts.nodeIdMap.getD nd.a 0 else nd.a,
               if nd.b < i + k then ts.nodeIdMap.getD nd.b 0 else nd.b,
               if nd.c < i + k then ts.nodeIdMap.getD nd.c 0 else nd.c,
               nd.imm, isActiveOf nd.flags, false⟩) := by
  intro rest
  induction rest with
  | nil => intro i st ts _ _ k nd hk; simp at hk
  | cons nd0 rest ih =>
    intro i st ts h hlen k nd hk
    cases k with
    | zero =>
      rw [List.getElem?_cons_zero] at hk
      cases hk
      by_cases h1 : nd0.op = OP_INPUT
      · simp only [transNodes, h1, if_true] at h
        have o := transNodes_out cids rest (i + 1) _ ts h
        have hmap : ts.nodeIdMap[i + 0]? = some (addInput st.fg).2 := by
          rw [o.mapPref (i + 0) (by simp; omega)]
          have hi0 : i + 0 = st.nodeIdMap.length := by omega
          rw [hi0]
          exact getElem?_append_len st.nodeIdMap _
        refine ⟨fun _ => ⟨(addInput st.fg).2, hmap, ?_⟩,
                fun hcon => absurd (h1 ▸ hcon) (by decide),
                fun hni _ => absurd h1 hni⟩
        rw [o.fgPref (addInput st.fg).2 (by simp [addInput])]
        exact getElem?_append_len st.fg.nodes _
      · by_cases h2 : nd0.op = OP_CONSTANT
        · simp only [transNodes] at h
          rw [if_neg h1, if_pos h2] at h
          by_cases h3 : castToUInt32 nd0.imm < cids.length
          · rw [if_pos h3] at h
            have o := transNodes_out cids rest (i + 1) _ ts h
            have hmap : ts.nodeIdMap[i + 0]? =
                some (cids.getD (castToUInt32 nd0.imm) 0) := by
              rw [o.mapPref (i + 0) (by simp; omega)]
              have hi0 : i + 0 = st.nodeIdMap.length := by omega
              rw [hi0]
              exact getElem?_append_len st.nodeIdMap _
            exact ⟨fun hin => absurd hin h1, fun _ => ⟨h3, hmap⟩,
                   fun _ hnc => absurd h2 hnc⟩
          · rw [if_neg h3] at h
            cases h
        · simp only [transNodes, h1, if_false, h2, if_false] at h
          have o := transNodes_out cids rest (i + 1) _ ts h
          have hmape : ∀ x, x < i → ts.nodeIdMap.getD x 0 = st.nodeIdMap.getD x 0 := by
            intro x hx
            have hx1 : x < st.nodeIdMap.length := by omega
            refine getD_pref ?_ hx1 0
            intro m hm
            rw [o.mapPref m (by simp; omega)]
            exact List.getElem?_append_left hm
          have hmap : ts.nodeIdMap[i + 0]? =
              some (addNode st.fg nd0.op
                (if nd0.a < i then st.nodeIdMap.getD nd0.a 0 else nd0.a)
                (if nd0.b < i then st.nodeIdMap.getD nd0.b 0 else nd0.b)
                (if nd0.c < i then st.nodeIdMap.getD nd0.c 0 else nd0.c)
                nd0.imm (isActiveOf nd0.flags) false).2 := by
            rw [o.mapPref (i + 0) (by simp; omega)]
            have hi0 : i + 0 = st.nodeIdMap.length := by omega
            rw [hi0]
            exact getElem?_append_len st.nodeIdMap _
          refine ⟨fun hin => absurd hin h1, fun hcon => absurd hcon h2,
                  fun _ _ => ⟨_, hmap, ?_⟩⟩
          rw [o.fgPref _ (by simp [addNode])]
          have ea : (if nd0.a < i + 0 then ts.nodeIdMap.getD nd0.a 0 else nd0.a) =
              (if nd0.a < i then st.nodeIdMap.getD nd0.a 0 else nd0.a) := by
            by_cases hlt : nd0.a < i
            · rw [if_pos (by omega), if_pos hlt, hmape nd0.a hlt]
            · rw [if_neg (by omega), if_neg hlt]
          have eb : (if nd0.b < i + 0 then ts.nodeIdMap.getD nd0.b 0 else nd0.b) =
              (if nd0.b < i then st.nodeIdMap.getD nd0.b 0 else nd0.b) := by
            by_cases hlt : nd0.b < i
            · rw [if_pos (by omega), if_pos hlt, hmape nd0.b hlt]
            · rw [if_neg (by omega), if_neg hlt]
          have ec : (if nd0.c < i + 0 then ts.nodeIdMap.getD nd0.c 0 else nd0.c) =
              (if nd0.c < i then st.nodeIdMap.getD nd0.c 0 else nd0.c) := by
            by_cases hlt : nd0.c < i
            · rw [if_pos (by omega), if_pos hlt, hmape nd0.c hlt]
            · rw [if_neg (by omega), if_neg hlt]
          rw [ea, eb, ec]
          exact getElem?_append_len st.fg.nodes _
    | succ m =>
      rw [List.getElem?_cons_succ] at hk
      have hadd : i + (m + 1) = (i + 1) + m := by omega
      by_cases h1 : nd0.op = OP_INPUT
      · simp only [transNodes, h1, if_true] at h
        rw [hadd]
        exact ih (i + 1) _ ts h (by simp; omega) m nd hk
      · by_cases h2 : nd0.op = OP_CONSTANT
        · simp only [transNodes] at h
          rw [if_neg h1, if_pos h2] at h
          by_cases h3 : castToUInt32 nd0.imm < cids.length
          · rw [if_pos h3] at h
            rw [hadd]
            exact ih (i + 1) _ ts h (by simp; omega) m nd hk
          · rw [if_neg h3] at h
            cases h
        · simp only [transNodes, h1, if_false, h2, if_false] at h
          rw [hadd]
          exact ih (i + 1) _ ts h (by simp; omega) m nd hk

theorem getD_mem_of_lt {l : List Nat} {x : Nat} (h : x < l.length) (d : Nat) :
    l.getD x d ∈ l := by
  rw [List.getD_eq_getElem?_getD, List.getElem?_eq_getElem h]
  exact List.getElem_mem h

theorem topoFG_append (nodes : List ForgeNode) (x : ForgeNode)
    (h : topoFG nodes) (hx : ∀ y ∈ operandList x, y < nodes.length) :
    topoFG (nodes ++ [x]) := by
  intro j hj y hy
  by_cases hjl : j < nodes.length
  · have he : (nodes ++ [x]).getD j default = nodes.getD j default := by
      rw [List.getD_eq_getElem?_getD, List.getD_eq_getElem?_getD,
        List.getElem?_append_left hjl]
    rw [he] at hy
    exact h j hjl y hy
  · have hj2 : j = nodes.length := by
      simp only [List.length_append, List.length_cons, List.length_nil] at hj
      omega
    subst hj2
    rw [getD_append_length nodes x default rfl] at hy
    exact hx y hy

/-- A successful node pass on a topologically ordered source suffix keeps
the target graph topologically ordered: remapped operands point at
already-created target nodes. -/
theorem transNodes_topo (cids : List Nat) :
    ∀ (rest : List JITNode) (i : Nat) (st ts : TransState),
      transNodes cids rest i st = .ok ts →
      st.nodeIdMap.length = i →
      (∀ x ∈ st.nodeIdMap, x < st.fg.nodes.length) →
      (∀ x ∈ cids, x < st.fg.nodes.length) →
      topoFG st.fg.nodes →
      (∀ (k : Nat) (nd : JITNode), rest[k]? = some nd →
        nd.op ≠ OP_INPUT → nd.op ≠ OP_CONSTANT →
        nd.a < i + k ∧ nd.b < i + k ∧ nd.c < i + k) →
      topoFG ts.fg.nodes := by
  intro rest
  induction rest with
  | nil =>
    intro i st ts h _ _ _ htopo _
    cases h
    exact htopo
  | cons nd rest ih =>
    intro i st ts h hlen hb hc htopo hsrc
    have hsrc' : ∀ (k : Nat) (nd' : JITNode), rest[k]? = some nd' →
        nd'.op ≠ OP_INPUT → nd'.op ≠ OP_CONSTANT →
        nd'.a < (i + 1) + k ∧ nd'.b < (i + 1) + k ∧ nd'.c < (i + 1) + k := by
      intro k nd' hk hni hnc
      have := hsrc (k + 1) nd' (by rw [List.getElem?_cons_succ]; exact hk) hni hnc
      omega
    by_cases h1 : nd.op = OP_INPUT
    · simp only [transNodes, h1, if_true] at h
      refine ih (i + 1) _ ts h (by simp; omega) ?_ ?_ ?_ hsrc'
      · intro x hx
        simp only [addInput, List.length_append, List.length_cons, List.length_nil]
        rcases List.mem_append.mp hx with hx | hx
        · have := hb x hx; omega
        · simp [addInput] at hx; omega
      · intro x hx
        have := hc x hx
        simp only [addInput, List.length_append, List.length_cons, List.length_nil]
        omega
      · refine topoFG_append st.fg.nodes _ htopo ?_
        intro y hy
        simp [operandList, OP_INPUT, OP_CONSTANT] at hy
    · by_cases h2 : nd.op = OP_CONSTANT
      · simp only [transNodes] at h
        rw [if_neg h1, if_pos h2] at h
        by_cases h3 : castToUInt32 nd.imm < cids.length
        · rw [if_pos h3] at h
          refine ih (i + 1) _ ts h (by simp; omega) ?_ hc htopo hsrc'
          intro x hx
          rcases List.mem_append.mp hx with hx | hx
          · exact hb x hx
          · simp at hx
            subst hx
            refine hc _ ?_
            simp only [List.getElem?_eq_getElem h3, Option.getD_some]
            exact List.getElem_mem h3
        · rw [if_neg h3] at h
          cases h
      · simp only [transNodes, h1, if_false, h2, if_false] at h
        have hop := hsrc 0 nd List.getElem?_cons_zero h1 h2
        have hlt : nd.a < i ∧ nd.b < i ∧ nd.c < i := by omega
        refine ih (i + 1) _ ts h (by simp; omega) ?_ ?_ ?_ hsrc'
        · intro x hx
          simp only [addNode, List.length_append, List.length_cons, List.length_nil]
          rcases List.mem_append.mp hx with hx | hx
          · have := hb x hx; omega
          · simp [addNode] at hx; omega
        · intro x hx
          have := hc x hx
          simp only [addNode, List.length_append, List.length_cons, List.length_nil]
          omega
        · refine topoFG_append st.fg.nodes _ htopo ?_
          intro y hy
          have hcond : ¬(nd.op = OP_INPUT ∨ nd.op = OP_CONSTANT) := by
            intro hor
            rcases hor with hh | hh
            · exact h1 hh
            · exact h2 hh
          simp only [operandList, if_neg hcond] at hy
          have hmem : ∀ z, z < i → st.nodeIdMap.getD z 0 < st.fg.nodes.length := by
            intro z hz
            exact hb _ (getD_mem_of_lt (by omega) 0)
          rcases List.mem_cons.mp hy with hy | hy
          · rw [hy, if_pos hlt.1]
            exact hmem nd.a hlt.1
          rcases List.mem_cons.mp hy with hy | hy
          · rw [hy, if_pos hlt.2.1]
            exact hmem nd.b hlt.2.1
          rcases List.mem_cons.mp hy with hy | hy
          · rw [hy, if_pos hlt.2.2]
            exact hmem nd.c hlt.2.2
          · simp at hy

/-- Characterization of the constant pre-registration loop: it appends one
constant node per pool entry (in pool order, with sequential pool
references), extends the Forge pool by exactly the source pool, and
returns the sequential ids of the new nodes. -/
theorem preReg_spec :
    ∀ (pool : List Dbl) (fg : ForgeGraph) (acc : List Nat),
      (preReg pool fg acc).1.nodes.length = fg.nodes.length + pool.length ∧
      (preReg pool fg acc).2 = acc ++ List.range' fg.nodes.length pool.length ∧
      (preReg pool fg acc).1.constPool = fg.constPool ++ pool ∧
      (preReg pool fg acc).1.outputs = fg.outputs ∧
      (preReg pool fg acc).1.diffInputs = fg.diffInputs ∧
      (∀ k, k < fg.nodes.length → (preReg pool fg acc).1.nodes[k]? = fg.nodes[k]?) ∧
      (∀ k, k < pool.length →
        (preReg pool fg acc).1.nodes[fg.nodes.length + k]? =
          some ⟨OP_CONSTANT, 0, 0, 0, ((fg.constPool.length + k : Nat) : Dbl),
                false, false⟩) := by
  intro pool
  induction pool with
  | nil =>
    intro fg acc
    refine ⟨by simp [preReg], by simp [preReg], by simp [preReg],
      rfl, rfl, fun k _ => rfl, fun k hk => by simp at hk⟩
  | cons v pool ih =>
    intro fg acc
    obtain ⟨l1, l2, l3, l4, l5, l6, l7⟩ := ih (addConstant fg v).1 (acc ++ [(addConstant fg v).2])
    have hnlen : (addConstant fg v).1.nodes.length = fg.nodes.length + 1 := by
      simp [addConstant]
    have hplen : (addConstant fg v).1.constPool.length = fg.constPool.length + 1 := by
      simp [addConstant]
    refine ⟨?_, ?_, ?_, ?_, ?_, ?_, ?_⟩
    · show (preReg pool (addConstant fg v).1 _).1.nodes.length = _
      rw [l1, hnlen]
      simp only [List.length_cons]
      omega
    · show (preReg pool (addConstant fg v).1 _).2 = _
      rw [l2, hnlen, List.append_assoc]
      rfl
    · show (preReg pool (addConstant fg v).1 _).1.constPool = _
      rw [l3]
      show (fg.constPool ++ [v]) ++ pool = _
      rw [List.append_assoc]
      rfl
    · show (preReg pool (addConstant fg v).1 _).1.outputs = _
      rw [l4]
      rfl
    · show (preReg pool (addConstant fg v).1 _).1.diffInputs = _
      rw [l5]
      rfl
    · intro k hk
      show (preReg pool (addConstant fg v).1 _).1.nodes[k]? = _
      rw [l6 k (by omega)]
      show ((fg.nodes ++ _) : List ForgeNode)[k]? = _
      exact List.getElem?_append_left hk
    · intro k hk
      cases k with
      | zero =>
        show (preReg pool (addConstant fg v).1 _).1.nodes[fg.nodes.length + 0]? = _
        rw [show fg.nodes.length + 0 = fg.nodes.length from rfl, l6 fg.nodes.length (by omega)]
        show ((fg.nodes ++
          [⟨OP_CONSTANT, 0, 0, 0, (fg.constPool.length : Dbl), false, false⟩]) :
          List ForgeNode)[fg.nodes.length]? = _
        rw [getElem?_append_len]
        rfl
      | succ m =>
        have hm : m < pool.length := by simpa using hk
        show (preReg pool (addConstant fg v).1 _).1.nodes[fg.nodes.length + (m + 1)]? = _
        have e1 : fg.nodes.length + (m + 1) = (addConstant fg v).1.nodes.length + m := by
          rw [hnlen]; omega
        have e2 : (addConstant fg v).1.constPool.length + m =
            fg.constPool.length + (m + 1) := by
          rw [hplen]
          omega
        rw [e1, l7 m hm, e2]

theorem range_getD {n k : Nat} (h : k < n) : (List.range n).getD k 0 = k := by
  have hk : k < (List.range n).length := by simpa using h
  rw [List.getD_eq_getElem?_getD, List.getElem?_eq_getElem hk]
  simp

theorem getElem?_lt_length {α : Type} {l : List α} {i : Nat} {x : α}
    (h : l[i]? = some x) : i < l.length := by
  by_contra hc
  rw [List.getElem?_eq_none (by omega)] at h
  cases h

theorem getD_eq_some {α : Type} [Inhabited α] {l : List α} {i : Nat} {x : α}
    (h : l[i]? = some x) : l.getD i default = x := by
  rw [List.getD_eq_getElem?_getD, h]
  rfl

/-- Facts about pre-registration from the empty graph: the returned ids
are `0, 1, …`, one per pool entry, the graph holds exactly the constant
nodes in pool order, and the result is trivially topologically ordered. -/
theorem preReg_empty (pool : List Dbl) :
    (preReg pool ForgeGraph.empty []).2 = List.range pool.length ∧
    (preReg pool ForgeGraph.empty []).1.nodes.length = pool.length ∧
    (preReg pool ForgeGraph.empty []).1.constPool = pool ∧
    (preReg pool ForgeGraph.empty []).1.outputs = [] ∧
    (preReg pool ForgeGraph.empty []).1.diffInputs = [] ∧
    (∀ k, k < pool.length →
      (preReg pool ForgeGraph.empty []).1.nodes[k]? =
        some ⟨OP_CONSTANT, 0, 0, 0, (k : Dbl), false, false⟩) ∧
    topoFG (preReg pool ForgeGraph.empty []).1.nodes := by
  obtain ⟨p1, p2, p3, p4, p5, _, p7⟩ := preReg_spec pool ForgeGraph.empty []
  have hlen0 : ForgeGraph.empty.nodes.length = 0 := rfl
  have hcp0 : ForgeGraph.empty.constPool.length = 0 := rfl
  have hp1 : (preReg pool ForgeGraph.empty []).1.nodes.length = pool.length := by
    simpa [hlen0] using p1
  have hk : ∀ k, k < pool.length →
      (preReg pool ForgeGraph.empty []).1.nodes[k]? =
        some ⟨OP_CONSTANT, 0, 0, 0, (k : Dbl), false, false⟩ := by
    intro k hkp
    have := p7 k hkp
    simpa [hlen0, hcp0] using this
  refine ⟨?_, hp1, by simpa [ForgeGraph.empty] using p3, p4, p5, hk, ?_⟩
  · rw [p2, hlen0]
    show ([] : List Nat) ++ List.range' 0 pool.length = _
    rw [List.nil_append, List.range_eq_range']
  · intro j hj y hy
    have hjp : j < pool.length := by omega
    rw [getD_eq_some (hk j hjp)] at hy
    simp [operandList, OP_INPUT, OP_CONSTANT] at hy

/-- Characterization of a successful translation of a whole graph by the
pre-registering backends: constants are pre-registered in pool order at
ids `0, …, P-1`, CONSTANT source nodes resolve to the pool-index id after
validation, and every other source node gets a fresh node with operands
remapped exactly when below the source index. -/
theorem translateGraph_ok (g : JITGraph) (ts : TransState)
    (h : translateGraph g = .ok ts) :
    ts.nodeIdMap.length = g.nodes.length ∧
    ts.fg.constPool = g.const_pool ∧
    ts.fg.outputs = [] ∧
    ts.fg.diffInputs = [] ∧
    (∀ x ∈ ts.nodeIdMap, x < ts.fg.nodes.length) ∧
    (∀ k, k < g.const_pool.length →
      ts.fg.nodes[k]? = some ⟨OP_CONSTANT, 0, 0, 0, (k : Dbl), false, false⟩) ∧
    (∀ (i : Nat) (nd : JITNode), g.nodes[i]? = some nd →
      (nd.op = OP_CONSTANT → castToUInt32 nd.imm < g.const_pool.length ∧
        ts.nodeIdMap[i]? = some (castToUInt32 nd.imm)) ∧
      (nd.op = OP_INPUT →
        ∃ fid, ts.nodeIdMap[i]? = some fid ∧
          ts.fg.nodes[fid]? = some ⟨OP_INPUT, 0, 0, 0, 0, true, false⟩) ∧
      (nd.op ≠ OP_INPUT → nd.op ≠ OP_CONSTANT →
        ∃ fid, ts.nodeIdMap[i]? = some fid ∧
          ts.fg.nodes[fid]? = some
            ⟨nd.op,
             if nd.a < i then ts.nodeIdMap.getD nd.a 0 else nd.a,
             if nd.b < i then ts.nodeIdMap.getD nd.b 0 else nd.b,
             if nd.c < i then ts.nodeIdMap.getD nd.c 0 else nd.c,
             nd.imm, isActiveOf nd.flags, false⟩)) := by
  simp only [translateGraph] at h
  obtain ⟨r1, r2, r3, r4, r5, r6, r7⟩ := preReg_empty g.const_pool
  have o := transNodes_out (preReg g.const_pool ForgeGraph.empty []).2
    g.nodes 0 _ ts h
  have hcl : (preReg g.const_pool ForgeGraph.empty []).2.length =
      g.const_pool.length := by rw [r1]; simp
  refine ⟨?_, ?_, ?_, ?_, ?_, ?_, ?_⟩
  · rw [o.mapLen]; simp
  · rw [o.poolEq, r3]
  · rw [o.outEq, r4]
  · rw [o.diffEq, r5]
  · exact transNodes_bound _ g.nodes 0 _ ts h (by intro x hx; simp at hx)
      (fun x hx => by
        rw [r1] at hx
        show x < (preReg g.const_pool ForgeGraph.empty []).1.nodes.length
        rw [r2]
        exact List.mem_range.mp hx)
  · intro k hk
    rw [o.fgPref k (by
      show k < (preReg g.const_pool ForgeGraph.empty []).1.nodes.length
      rw [r2]
      omega), r6 k hk]
  · intro i nd hnd
    have c := transNodes_char (preReg g.const_pool ForgeGraph.empty []).2
      g.nodes 0 _ ts h rfl i nd hnd
    refine ⟨?_, ?_, ?_⟩
    · intro hcon
      obtain ⟨hlt, hmap⟩ := c.2.1 hcon
      refine ⟨by omega, ?_⟩
      have : (preReg g.const_pool ForgeGraph.empty []).2.getD
          (castToUInt32 nd.imm) 0 = castToUInt32 nd.imm := by
        rw [r1]
        exact range_getD (by omega)
      rw [show (0 : Nat) + i = i from by omega] at hmap
      rw [this] at hmap
      exact hmap
    · intro hin
      obtain ⟨fid, hmap, hnode⟩ := c.1 hin
      rw [show (0 : Nat) + i = i from by omega] at hmap
      exact ⟨fid, hmap, hnode⟩
    · intro hni hnc
      obtain ⟨fid, hmap, hnode⟩ := c.2.2 hni hnc
      rw [show (0 : Nat) + i = i from by omega] at hmap
      rw [show (0 : Nat) + i = i from by omega] at hnode
      exact ⟨fid, hmap, hnode⟩

/-- A source graph satisfying the topological-order invariant translates
to a topologically ordered target graph. -/
theorem translateGraph_topo (g : JITGraph) (ts : TransState)
    (h : translateGraph g = .ok ts) (hs : sourceTopo g) : topoFG ts.fg.nodes := by
  simp only [translateGraph] at h
  obtain ⟨r1, r2, _, _, _, _, r7⟩ := preReg_empty g.const_pool
  refine transNodes_topo _ g.nodes 0 _ ts h rfl
    (by intro x hx; simp at hx)
    (fun x hx => by
      rw [r1] at hx
      show x < (preReg g.const_pool ForgeGraph.empty []).1.nodes.length
      rw [r2]
      exact List.mem_range.mp hx)
    r7 ?_
  intro k nd hk hni hnc
  have hlt : k < g.nodes.length := getElem?_lt_length hk
  have := hs k hlt
  rw [getD_eq_some hk] at this
  have := this hni hnc
  omega

theorem markOutputs_struct :
    ∀ (out : List Nat) (map : List Nat) (fg : ForgeGraph) (acc : List Nat)
      (fg' : ForgeGraph) (outIds : List Nat),
      markOutputs map out fg acc = some (fg', outIds) →
      fg'.nodes = fg.nodes ∧ fg'.constPool = fg.constPool ∧
        fg'.diffInputs = fg.diffInputs := by
  intro out
  induction out with
  | nil =>
    intro map fg acc fg' outIds h
    simp only [markOutputs] at h
    cases h
    exact ⟨rfl, rfl, rfl⟩
  | cons x rest ih =>
    intro map fg acc fg' outIds h
    simp only [markOutputs] at h
    cases hm : map[x]? with
    | none => rw [hm] at h; cases h
    | some fid =>
      rw [hm] at h
      obtain ⟨e1, e2, e3⟩ := ih map _ _ fg' outIds h
      exact ⟨e1, e2, e3⟩

theorem markDiffInputs_struct :
    ∀ (inp : List Nat) (map : List Nat) (fg : ForgeGraph) (fg' : ForgeGraph),
      markDiffInputs map inp fg = some fg' →
      fg'.nodes = fg.nodes ∧ fg'.constPool = fg.constPool ∧
        fg'.outputs = fg.outputs := by
  intro inp
  induction inp with
  | nil =>
    intro map fg fg' h
    simp only [markDiffInputs] at h
    cases h
    exact ⟨rfl, rfl, rfl⟩
  | cons x rest ih =>
    intro map fg fg' h
    simp only [markDiffInputs] at h
    cases hm : map[x]? with
    | none => rw [hm] at h; cases h
    | some fid =>
      rw [hm] at h
      obtain ⟨e1, e2, e3⟩ := ih map _ fg' h
      exact ⟨e1, e2, e3⟩

/-- Decomposition of a successful `compileFull`: the translation, the two
marking passes and the propagation that produced the final state, and
the exact contents of every field of the resulting adapter. -/
theorem compileFull_ok (instr : Nat) (ad : Adapter) (g : JITGraph) (s : Adapter)
    (h : compileFull instr ad g = .ok s) :
    ∃ ts fg1 outIds fg2,
      translateGraph g = .ok ts ∧
      markOutputs ts.nodeIdMap g.output_ids ts.fg [] = some (fg1, outIds) ∧
      markDiffInputs ts.nodeIdMap g.input_ids fg1 = some fg2 ∧
      s = { useOptimizations_ := ad.useOptimizations_,
            graph_ := some (propagateGradients fg2),
            config_ := some ⟨ad.useOptimizations_, instr⟩,
            kernel_ := some ⟨propagateGradients fg2, ⟨ad.useOptimizations_, instr⟩⟩,
            buffer_ := some (bufferCreate (propagateGradients fg2) (widthOf instr)),
            inputIds_ := ts.inputIds,
            outputIds_ := outIds } := by
  simp only [compileFull] at h
  cases htr : translateGraph g with
  | error ts => simp only [htr] at h; cases h
  | ok ts =>
    simp only [htr] at h
    cases hmo : markOutputs ts.nodeIdMap g.output_ids ts.fg [] with
    | none => simp only [hmo] at h; cases h
    | some q =>
      simp only [hmo] at h
      cases hmd : markDiffInputs ts.nodeIdMap g.input_ids q.1 with
      | none => simp only [hmd] at h; cases h
      | some fg2 =>
        simp only [hmd] at h
        cases h
        exact ⟨ts, q.1, q.2, fg2, rfl, by rw [hmo], hmd, rfl⟩

/-- Decomposition of a throwing `compileFull`: the only throw site is the
translation failure, and the state at the throw holds the partial graph
and partial `inputIds_`, cleared native handles, and the stale
`outputIds_` of the previous compilation. -/
theorem compileFull_thrown (instr : Nat) (ad : Adapter) (g : JITGraph)
    (s : Adapter) (h : compileFull instr ad g = .thrown s) :
    ∃ ts, translateGraph g = .error ts ∧
      s = { useOptimizations_ := ad.useOptimizations_,
            graph_ := some ts.fg, config_ := none, kernel_ := none,
            buffer_ := none, inputIds_ := ts.inputIds,
            outputIds_ := ad.outputIds_ } := by
  simp only [compileFull] at h
  cases htr : translateGraph g with
  | error ts =>
    simp only [htr] at h
    cases h
    exact ⟨ts, rfl, rfl⟩
  | ok ts =>
    simp only [htr] at h
    cases hmo : markOutputs ts.nodeIdMap g.output_ids ts.fg [] with
    | none => simp only [hmo] at h; cases h
    | some q =>
      simp only [hmo] at h
      cases hmd : markDiffInputs ts.nodeIdMap g.input_ids q.1 with
      | none => simp only [hmd] at h; cases h
      | some fg2 => simp only [hmd] at h; cases h

/-! Concrete inputs used by witnesses and counterexamples. -/

/-- A source INPUT node. -/
def inputJN : JITNode := ⟨OP_INPUT, 0, 0, 0, 0, 0⟩

/-- A two-node graph whose second node (op 7) has operand `a = 1 ≥ 1`,
violating the topological-order invariant. -/
def cexFwdRef : JITGraph := ⟨[inputJN, ⟨7, 1, 0, 0, 0, 0⟩], [], [0], [1]⟩

/-- A well-formed two-node graph: one input feeding an op-7 node. -/
def cexOkGraph : JITGraph := ⟨[inputJN, ⟨7, 0, 0, 0, 0, 0⟩], [], [0], [1]⟩

/-- A one-node graph whose single input is both diff input and output. -/
def cexDiffIn : JITGraph := ⟨[inputJN], [], [0], [0]⟩

/-- Two CONSTANT nodes sharing constant-pool slot 0. -/
def cexShared : JITGraph :=
  ⟨[⟨OP_CONSTANT, 0, 0, 0, 0, 0⟩, ⟨OP_CONSTANT, 0, 0, 0, 0, 0⟩], [5], [], []⟩

/-- A graph whose CONSTANT node references slot 0 of an empty pool. -/
def cexBadConst : JITGraph := ⟨[inputJN, ⟨OP_CONSTANT, 0, 0, 0, 0, 0⟩], [], [], []⟩

/-- A graph whose CONSTANT node references slot 5 of an empty pool. -/
def cexBadConstAVX : JITGraph := ⟨[⟨OP_CONSTANT, 0, 0, 0, 5, 0⟩], [], [], []⟩

/-- A compiled-able graph that declares no outputs. -/
def cexNoOut : JITGraph := ⟨[inputJN], [], [0], []⟩

/-- A graph declaring two outputs. -/
def cexTwoOut : JITGraph := ⟨[inputJN, inputJN], [], [0, 1], [0, 1]⟩

/-- A single-constant graph with a valid pool reference. -/
def cexOneConst : JITGraph := ⟨[⟨OP_CONSTANT, 0, 0, 0, 0, 0⟩], [3], [], [0]⟩

/-- The translation state produced for `cexFwdRef`. -/
def c1ts : TransState :=
  match translateGraph cexFwdRef with
  | .ok ts => ts
  | .error ts => ts

/-- The translation state produced for `cexShared`. -/
def c3ts : TransState :=
  match translateGraph cexShared with
  | .ok ts => ts
  | .error ts => ts

/-- The adapter compiled from `cexOkGraph` (scalar instruction set). -/
def c2s : Adapter :=
  match compileFull IS_SSE2_SCALAR Adapter.init cexOkGraph with
  | .ok a => a
  | _ => Adapter.init

/-- The target graph held by `c2s`. -/
def c2fg : ForgeGraph := c2s.graph_.getD ForgeGraph.empty

instance {e a : Type} [DecidableEq e] [DecidableEq a] :
    DecidableEq (Except e a) := fun x y =>
  match x, y with
  | .ok v, .ok w =>
    if h : v = w then isTrue (by rw [h])
    else isFalse (by intro hh; cases hh; exact h rfl)
  | .error v, .error w =>
    if h : v = w then isTrue (by rw [h])
    else isFalse (by intro hh; cases hh; exact h rfl)
  | .ok _, .error _ => isFalse (by intro hh; cases hh)
  | .error _, .ok _ => isFalse (by intro hh; cases hh)

/-! Claim C1. -/

/-- C1 counterexample: the claim says a graph whose node has an operand
index `≥ i` is rejected with a translation error, but translating
`cexFwdRef` (whose node 1 has `a = 1 ≥ 1`) succeeds. -/
theorem C1_counterexample :
    (match translateGraph cexFwdRef with
     | .ok _ => true
     | .error _ => false) = true ∧
    ¬ sourceTopo cexFwdRef := by
  constructor
  · decide
  · decide

/-- C1 (amended): during translation by the pre-registering backends, an
operand index of a non-INPUT, non-CONSTANT node is remapped through
`nodeIdMap` exactly when it is below the node's own index; an operand
index `≥ i` is NOT rejected — it is passed through unchanged to the
external `forge_graph_add_node` call, and translation succeeds. -/
theorem C1_amended :
    ∀ (g : JITGraph) (ts : TransState) (i : Nat) (nd : JITNode),
      translateGraph g = .ok ts → g.nodes[i]? = some nd →
      nd.op ≠ OP_INPUT → nd.op ≠ OP_CONSTANT →
      ∃ fid, ts.nodeIdMap[i]? = some fid ∧
        ts.fg.nodes[fid]? = some
          ⟨nd.op,
           if nd.a < i then ts.nodeIdMap.getD nd.a 0 else nd.a,
           if nd.b < i then ts.nodeIdMap.getD nd.b 0 else nd.b,
           if nd.c < i then ts.nodeIdMap.getD nd.c 0 else nd.c,
           nd.imm, isActiveOf nd.flags, false⟩ := by
  intro g ts i nd h hnd hni hnc
  exact ((translateGraph_ok g ts h).2.2.2.2.2.2 i nd hnd).2.2 hni hnc

/-- C1 witness: the amended claim evaluated on `cexFwdRef` at node 1,
whose operand `a = 1` is not below 1 and is passed through unchanged. -/
theorem C1_witness :
    ∃ fid, c1ts.nodeIdMap[1]? = some fid ∧
      c1ts.fg.nodes[fid]? = some
        ⟨7,
         if (1 : Nat) < 1 then c1ts.nodeIdMap.getD 1 0 else 1,
         if (0 : Nat) < 1 then c1ts.nodeIdMap.getD 0 0 else 0,
         if (0 : Nat) < 1 then c1ts.nodeIdMap.getD 0 0 else 0,
         0, isActiveOf 0, false⟩ :=
  C1_amended cexFwdRef c1ts 1 ⟨7, 1, 0, 0, 0, 0⟩ (by decide) (by decide)
    (by decide) (by decide)

/-! Claim C2. -/

/-- C2 counterexample: the claim says every backend variant's `compile()`
invokes gradient propagation and establishes the fixpoint, but
`ForgeBackendAVX_CAPI::compile` succeeds on `cexDiffIn` without any
propagation, leaving its diff-input node with `needsGradient = false`,
so the fixpoint fails. -/
theorem C2_counterexample :
    (match compileAVX_CAPI Adapter.init cexDiffIn with
     | .ok a =>
       (match a.graph_ with
        | some fg => decide (¬ gradFixpoint fg)
        | none => false)
     | _ => false) = true := by
  decide

/-- C2 (amended): for the backends that call
`forge_graph_propagate_gradients` (ForgeBackend, ForgeBackendCAPI,
ForgeBackendAVX — the shared pipeline `compileFull`), after a successful
compile of a source graph satisfying the topological-order invariant,
every node of the resulting target graph satisfies
`needsGradient(n) = isDiffInput(n) OR any(needsGradient(operand))`;
ForgeBackendAVX_CAPI performs no propagation and the fixpoint can fail. -/
theorem C2_amended :
    ∀ (instr : Nat) (ad : Adapter) (g : JITGraph) (s : Adapter) (fg : ForgeGraph),
      sourceTopo g → compileFull instr ad g = .ok s → s.graph_ = some fg →
      gradFixpoint fg := by
  intro instr ad g s fg hs h hg
  obtain ⟨ts, fg1, outIds, fg2, htr, hmo, hmd, hsval⟩ := compileFull_ok instr ad g s h
  subst hsval
  cases hg
  refine propagate_fixpoint fg2 ?_
  have e1 := (markDiffInputs_struct g.input_ids ts.nodeIdMap fg1 fg2 hmd).1
  have e2 := (markOutputs_struct g.output_ids ts.nodeIdMap ts.fg [] fg1 outIds hmo).1
  rw [e1, e2]
  exact translateGraph_topo g ts htr hs

/-- C2 witness: the amended claim evaluated on `cexOkGraph`. -/
theorem C2_witness : gradFixpoint c2fg :=
  C2_amended IS_SSE2_SCALAR Adapter.init cexOkGraph c2s c2fg (by decide)
    (by decide) (by decide)

/-! Claim C3. -/

/-- C3 counterexample: the claim says translation registers one target
constant per pool entry before the node pass and CONSTANT nodes sharing a
slot share one target identity, but `ForgeBackendAVX_CAPI::compile` on
`cexShared` registers no pool entries at all (target pool is empty) and
gives the two slot-0 CONSTANT nodes two distinct target nodes. -/
theorem C3_counterexample :
    (match compileAVX_CAPI Adapter.init cexShared with
     | .ok a =>
       (match a.graph_ with
        | some fg =>
          (fg.constPool == []) && (fg.nodes.length == 2) &&
            ((fg.nodes.getD 0 default).op == OP_CONSTANT) &&
            ((fg.nodes.getD 1 default).op == OP_CONSTANT)
        | none => false)
     | _ => false) = true := by
  decide

/-- C3 (amended): in the pre-registering backends (ForgeBackend,
ForgeBackendCAPI, ForgeBackendAVX), translation registers exactly one
target constant node per pool entry, in pool order, before the node
pass, and every CONSTANT source node referencing pool slot `i` resolves
to the same target identity `constNodeIds[i]`; ForgeBackendAVX_CAPI
performs no pre-registration and gives each CONSTANT node its own
target node. -/
theorem C3_amended :
    ∀ (g : JITGraph) (ts : TransState), translateGraph g = .ok ts →
      ts.fg.constPool = g.const_pool ∧
      (∀ k, k < g.const_pool.length →
        ts.fg.nodes[k]? = some ⟨OP_CONSTANT, 0, 0, 0, (k : Dbl), false, false⟩) ∧
      (∀ (i j : Nat) (ndi ndj : JITNode), g.nodes[i]? = some ndi →
        g.nodes[j]? = some ndj → ndi.op = OP_CONSTANT → ndj.op = OP_CONSTANT →
        castToUInt32 ndi.imm = castToUInt32 ndj.imm →
        ts.nodeIdMap[i]? = ts.nodeIdMap[j]?) := by
  intro g ts h
  obtain ⟨_, hpool, _, _, _, hpre, hchar⟩ := translateGraph_ok g ts h
  refine ⟨hpool, hpre, ?_⟩
  intro i j ndi ndj hi hj hci hcj heq
  have mi := ((hchar i ndi hi).1 hci).2
  have mj := ((hchar j ndj hj).1 hcj).2
  rw [mi, mj, heq]

/-- C3 witness: the amended claim evaluated on `cexShared`, whose two
slot-0 CONSTANT nodes resolve to the same target id. -/
theorem C3_witness :
    c3ts.fg.constPool = cexShared.const_pool ∧
    (∀ k, k < cexShared.const_pool.length →
      c3ts.fg.nodes[k]? = some ⟨OP_CONSTANT, 0, 0, 0, (k : Dbl), false, false⟩) ∧
    (∀ (i j : Nat) (ndi ndj : JITNode), cexShared.nodes[i]? = some ndi →
      cexShared.nodes[j]? = some ndj → ndi.op = OP_CONSTANT →
      ndj.op = OP_CONSTANT → castToUInt32 ndi.imm = castToUInt32 ndj.imm →
      c3ts.nodeIdMap[i]? = c3ts.nodeIdMap[j]?) :=
  C3_amended cexShared c3ts (by decide)

/-! Claim C4. -/

/-- The AVX adapter compiled from `cexTwoOut` (two declared outputs). -/
def c4ad : Adapter :=
  match compileFull IS_AVX2_PACKED Adapter.init cexTwoOut with
  | .ok a => a
  | _ => Adapter.init

/-- The buffer held by `c4ad`. -/
def c4buf : Buffer := c4ad.buffer_.getD ⟨0, [], []⟩

/-- The scalar adapter compiled from `cexOkGraph`. -/
def c4sc : Adapter :=
  match compileFull IS_SSE2_SCALAR Adapter.init cexOkGraph with
  | .ok a => a
  | _ => Adapter.init

/-- The buffer held by `c4sc`. -/
def c4scbuf : Buffer := c4sc.buffer_.getD ⟨0, [], []⟩

/-- C4 counterexample: the claim says `forwardAndBackward` writes the
lanes of every declared output, but on the compiled two-output AVX
adapter the call writes exactly one lane group ("first output only for
now") although two outputs are declared. -/
theorem C4_counterexample :
    (match avxForwardAndBackward id c4ad [1, 1, 1, 1] 2 with
     | .ok outs _ _ => outs.length == 1
     | _ => false) = true ∧
    c4ad.outputIds_.length = 2 := by
  constructor
  · decide
  · decide

/-- C4 (amended): on a compiled adapter, the scalar
`ForgeBackend::forwardAndBackward` clears gradients, executes once, and
writes the value lanes of every declared output in order and the
gradient lanes of every declared input in declared order; the W = 4
`forwardAndBackward` (ForgeBackendAVX / ForgeBackendAVX_CAPI) writes
only the FIRST declared output's lanes, plus the per-input gradient
lanes in declared order. -/
theorem C4_amended :
    (∀ (exec : Buffer → Buffer) (ad : Adapter) (b : Buffer),
      ad.kernel_.isSome = true → ad.buffer_ = some b →
      forgeForwardAndBackward exec ad =
        .ok (ad.outputIds_.map (getLanes (exec (clearGradients b))))
            (ad.inputIds_.map (getGradientLanes (exec (clearGradients b))))
            (exec (clearGradients b))) ∧
    (∀ (exec : Buffer → Buffer) (ad : Adapter) (b : Buffer) (oid : Nat)
        (restOut : List Nat) (seed : List Dbl),
      ad.kernel_.isSome = true → ad.buffer_ = some b →
      ad.outputIds_ = oid :: restOut →
      avxForwardAndBackward exec ad seed ad.inputIds_.length =
        .ok [getLanes (exec (clearGradients b)) oid]
            (ad.inputIds_.map (getGradientLanes (exec (clearGradients b))))
            (exec (clearGradients b))) := by
  constructor
  · intro exec ad b hk hb
    cases hkk : ad.kernel_ with
    | none => rw [hkk] at hk; cases hk
    | some k => simp only [forgeForwardAndBackward, hkk, hb]
  · intro exec ad b oid restOut seed hk hb ho
    cases hkk : ad.kernel_ with
    | none => rw [hkk] at hk; cases hk
    | some k =>
      simp only [avxForwardAndBackward, hkk, hb, ho, List.getElem?_cons_zero]
      rw [if_neg (fun hh => hh rfl)]

/-- C4 witness: the amended claim evaluated on the compiled scalar
adapter of `cexOkGraph` and the compiled AVX adapter of `cexTwoOut`. -/
theorem C4_witness :
    forgeForwardAndBackward id c4sc =
      .ok (c4sc.outputIds_.map (getLanes (id (clearGradients c4scbuf))))
          (c4sc.inputIds_.map (getGradientLanes (id (clearGradients c4scbuf))))
          (id (clearGradients c4scbuf)) ∧
    avxForwardAndBackward id c4ad [1, 1, 1, 1] c4ad.inputIds_.length =
      .ok [getLanes (id (clearGradients c4buf)) 0]
          (c4ad.inputIds_.map (getGradientLanes (id (clearGradients c4buf))))
          (id (clearGradients c4buf)) :=
  ⟨C4_amended.1 id c4sc c4scbuf (by decide) (by decide),
   C4_amended.2 id c4ad c4buf 0 [1] [1, 1, 1, 1] (by decide) (by decide)
     (by decide)⟩

/-! Claim C5. -/

/-- The CAPI adapter compiled from `cexOkGraph`. -/
def c5ad : AdapterC :=
  match compileCAPI ⟨Adapter.init, 0⟩ cexOkGraph with
  | .ok a => a
  | _ => ⟨Adapter.init, 0⟩

/-- C5: the results of `forwardAndBackward` are independent of the
caller-supplied output-adjoint seed. For the W = 4 backends the seed
argument is ignored entirely; for `ForgeBackendCAPI` only the seed
array's length (checked against the declared output count) matters, so
two seeds of equal length give identical results. -/
theorem C5_seed_ignored :
    (∀ (exec : Buffer → Buffer) (ad : Adapter) (s1 s2 : List Dbl) (gc : Nat),
      avxForwardAndBackward exec ad s1 gc = avxForwardAndBackward exec ad s2 gc) ∧
    (∀ (exec : Buffer → Buffer) (ad : AdapterC) (ins s1 s2 : List Dbl),
      s1.length = s2.length →
      capiForwardAndBackward exec ad ins s1 = capiForwardAndBackward exec ad ins s2) := by
  constructor
  · intro exec ad s1 s2 gc
    rfl
  · intro exec ad ins s1 s2 h
    simp only [capiForwardAndBackward, h]

/-- C5 witness: two different unit seeds on the compiled CAPI adapter
give the same result. -/
theorem C5_witness :
    capiForwardAndBackward id c5ad [3] [1] = capiForwardAndBackward id c5ad [3] [2] :=
  C5_seed_ignored.2 id c5ad [3] [1] [2] (by decide)

/-! Claim C6. -/

/-- Pool-index validity of every CONSTANT node of a source graph. -/
def constIdxOk (g : JITGraph) : Prop :=
  ∀ i, i < g.nodes.length → (g.nodes.getD i default).op = OP_CONSTANT →
    castToUInt32 (g.nodes.getD i default).imm < g.const_pool.length

instance (g : JITGraph) : Decidable (constIdxOk g) := by
  unfold constIdxOk; infer_instance

/-- C6 counterexample: the claim says a CONSTANT node with a pool index
at or beyond the pool size fails translation, but
`ForgeBackendAVX_CAPI::compile` on `cexBadConstAVX` (slot 5, empty pool)
performs no validation and succeeds. -/
theorem C6_counterexample :
    (match compileAVX_CAPI Adapter.init cexBadConstAVX with
     | .ok _ => true
     | _ => false) = true := by
  decide

/-- C6 (amended): in the pre-registering backends (ForgeBackend,
ForgeBackendCAPI, ForgeBackendAVX), a CONSTANT source node whose
immediate, cast to an index, reaches the pool size makes translation
fail; when every CONSTANT node's index is in range the error branch is
unreachable — translation succeeds and each CONSTANT node resolves via
`constNodeIds[index]`. ForgeBackendAVX_CAPI performs no validation. -/
theorem C6_amended :
    (∀ (g : JITGraph) (i : Nat) (nd : JITNode),
      g.nodes[i]? = some nd → nd.op = OP_CONSTANT →
      g.const_pool.length ≤ castToUInt32 nd.imm →
      ∃ st, translateGraph g = .error st) ∧
    (∀ g : JITGraph, constIdxOk g →
      ∃ ts, translateGraph g = .ok ts ∧
        ∀ (i : Nat) (nd : JITNode), g.nodes[i]? = some nd →
          nd.op = OP_CONSTANT → ts.nodeIdMap[i]? = some (castToUInt32 nd.imm)) := by
  constructor
  · intro g i nd hnd hc hge
    cases htr : translateGraph g with
    | error st => exact ⟨st, rfl⟩
    | ok ts =>
      obtain ⟨hlt, _⟩ := ((translateGraph_ok g ts htr).2.2.2.2.2.2 i nd hnd).1 hc
      omega
  · intro g hgood
    have hclen : (preReg g.const_pool ForgeGraph.empty []).2.length =
        g.const_pool.length := by
      rw [(preReg_empty g.const_pool).1]
      simp
    obtain ⟨ts, hts⟩ := transNodes_progress
      (preReg g.const_pool ForgeGraph.empty []).2 g.nodes 0
      ⟨(preReg g.const_pool ForgeGraph.empty []).1, [], []⟩
      (by
        intro k nd hk hc
        rw [hclen]
        have hlt : k < g.nodes.length := getElem?_lt_length hk
        have := hgood k hlt
        rw [getD_eq_some hk] at this
        exact this hc)
    have htg : translateGraph g = .ok ts := by
      simp only [translateGraph]
      exact hts
    refine ⟨ts, htg, ?_⟩
    intro i nd hnd hc
    exact (((translateGraph_ok g ts htg).2.2.2.2.2.2 i nd hnd).1 hc).2

/-- C6 witness: the bad-index part evaluated on `cexBadConst` and the
valid-index part evaluated on `cexOneConst`. -/
theorem C6_witness :
    (∃ st, translateGraph cexBadConst = .error st) ∧
    (∃ ts, translateGraph cexOneConst = .ok ts ∧
      ∀ (i : Nat) (nd : JITNode), cexOneConst.nodes[i]? = some nd →
        nd.op = OP_CONSTANT → ts.nodeIdMap[i]? = some (castToUInt32 nd.imm)) :=
  ⟨C6_amended.1 cexBadConst 1 ⟨OP_CONSTANT, 0, 0, 0, 0, 0⟩ (by decide)
     (by decide) (by decide),
   C6_amended.2 cexOneConst (by decide)⟩

/-! Claim C7. -/

/-- The adapter state at the throw of `compile()` on `cexBadConst`. -/
def c7s : Adapter :=
  match compileFull IS_SSE2_SCALAR Adapter.init cexBadConst with
  | .thrown a => a
  | _ => Adapter.init

/-- An adapter carrying stale id lists from an earlier compilation. -/
def c7dirty : Adapter := { Adapter.init with inputIds_ := [9], outputIds_ := [9] }

/-- The adapter produced by compiling `cexOkGraph` from the dirty state. -/
def c7ok : Adapter :=
  match compileFull IS_SSE2_SCALAR c7dirty cexOkGraph with
  | .ok a => a
  | _ => Adapter.init

/-- C7 counterexample: the claim says a failed `compile()` leaves the
adapter in its pre-compile state with no partially created resources and
no partially built id lists, but compiling `cexBadConst` from a fresh
adapter throws while holding a partially built graph handle and a
partially built `inputIds_` list. -/
theorem C7_counterexample :
    (match compileFull IS_SSE2_SCALAR Adapter.init cexBadConst with
     | .thrown s =>
       s.graph_.isSome && (s.inputIds_ == [0]) &&
         (Adapter.init.graph_ == none) && (Adapter.init.inputIds_ == [])
     | _ => false) = true := by
  decide

/-- C7 (amended): a failing `compile()` throws with `kernel_`, `buffer_`
and `config_` null — so the adapter behaves as UNCOMPILED and the caller
may retry, and a retried `compile()`'s successful outcome depends only on
the new graph and the optimization flag, not on the leftover state — but
the partially built graph handle and partial `inputIds_` (plus the stale
`outputIds_`) remain held until the next cleanup, so the adapter is not
in its pre-compile state. -/
theorem C7_amended :
    (∀ (instr : Nat) (ad : Adapter) (g : JITGraph) (s : Adapter),
      compileFull instr ad g = .thrown s →
      s.kernel_ = none ∧ s.buffer_ = none ∧ s.config_ = none) ∧
    (∀ (instr : Nat) (a1 a2 : Adapter) (g : JITGraph) (s1 : Adapter),
      a1.useOptimizations_ = a2.useOptimizations_ →
      compileFull instr a1 g = .ok s1 → compileFull instr a2 g = .ok s1) := by
  constructor
  · intro instr ad g s h
    obtain ⟨ts, _, hs⟩ := compileFull_thrown instr ad g s h
    subst hs
    exact ⟨rfl, rfl, rfl⟩
  · intro instr a1 a2 g s1 hopt h
    obtain ⟨ts, fg1, outIds, fg2, htr, hmo, hmd, hsval⟩ :=
      compileFull_ok instr a1 g s1 h
    subst hsval
    rw [hopt]
    simp only [compileFull, htr, hmo, hmd]

/-- C7 witness: the amended claim evaluated on `cexBadConst` (throw
state) and on a retry of `cexOkGraph` from a dirty adapter. -/
theorem C7_witness :
    (c7s.kernel_ = none ∧ c7s.buffer_ = none ∧ c7s.config_ = none) ∧
    compileFull IS_SSE2_SCALAR Adapter.init cexOkGraph = .ok c7ok :=
  ⟨C7_amended.1 IS_SSE2_SCALAR Adapter.init cexBadConst c7s (by decide),
   C7_amended.2 IS_SSE2_SCALAR c7dirty Adapter.init cexOkGraph c7ok rfl (by decide)⟩

/-! Claim C8. -/

/-- The CAPI adapter compiled from `cexOkGraph` (node count 2). -/
def c8ad : AdapterC :=
  match compileCAPI ⟨Adapter.init, 0⟩ cexOkGraph with
  | .ok a => a
  | _ => ⟨Adapter.init, 0⟩

/-- C8: when a kernel exists and the recorded node count equals the new
graph's node count, `ForgeBackendCAPI::compile` is a no-op returning the
adapter unchanged; after `reset()` the kernel handle is null, the guard
cannot fire, and the next `compile()` runs the full pipeline. -/
theorem C8_guard :
    (∀ (ad : AdapterC) (g : JITGraph),
      ad.base.kernel_.isSome = true → ad.lastNodeCount_ = g.nodeCount →
      compileCAPI ad g = .ok ad) ∧
    (∀ (ad : AdapterC) (g : JITGraph),
      (resetCAPI ad).base.kernel_ = none ∧
      compileCAPI (resetCAPI ad) g = capiCompileBody (resetCAPI ad) g) := by
  constructor
  · intro ad g h1 h2
    simp only [compileCAPI, h1, h2]
    simp
  · intro ad g
    refine ⟨rfl, ?_⟩
    simp only [compileCAPI]
    rfl

/-- C8 witness: the guard fires on the compiled CAPI adapter even for a
structurally different graph of equal node count (`cexFwdRef`), and
after `reset()` the full pipeline runs. -/
theorem C8_witness :
    compileCAPI c8ad cexFwdRef = .ok c8ad ∧
    ((resetCAPI c8ad).base.kernel_ = none ∧
      compileCAPI (resetCAPI c8ad) cexOkGraph =
        capiCompileBody (resetCAPI c8ad) cexOkGraph) :=
  ⟨C8_guard.1 c8ad cexFwdRef (by decide) (by decide),
   C8_guard.2 c8ad cexOkGraph⟩

/-! Claim C9. -/

/-- C9: on an adapter that is not compiled — freshly constructed, after
`reset()`, or moved-from — `setInput`, `forward` and
`forwardAndBackward` all fail with an error and leave the adapter
unchanged (the thrown results carry the untouched state). -/
theorem C9_uncompiled_ops_fail :
    ∀ (ad : Adapter) (exec : Buffer → Buffer) (idx : Nat) (vals : List Dbl),
      (setInput Adapter.init idx vals = .thrown Adapter.init ∧
        Adapter.forward exec Adapter.init = .thrown ∧
        forgeForwardAndBackward exec Adapter.init = .thrown) ∧
      (setInput ad.reset idx vals = .thrown ad.reset ∧
        Adapter.forward exec ad.reset = .thrown ∧
        forgeForwardAndBackward exec ad.reset = .thrown) ∧
      (setInput (movedFrom ad) idx vals = .thrown (movedFrom ad) ∧
        Adapter.forward exec (movedFrom ad) = .thrown ∧
        forgeForwardAndBackward exec (movedFrom ad) = .thrown) := by
  intro ad exec idx vals
  refine ⟨⟨?_, rfl, rfl⟩, ⟨?_, rfl, rfl⟩, ⟨?_, rfl, rfl⟩⟩
  · simp [setInput, Adapter.init]
  · simp [setInput, Adapter.reset, cleanup]
  · simp [setInput, movedFrom]

/-! Claim C10. -/

/-- The AVX adapter compiled from the zero-output graph `cexNoOut`. -/
def c10ad : Adapter :=
  match compileFull IS_AVX2_PACKED Adapter.init cexNoOut with
  | .ok a => a
  | _ => Adapter.init

/-- C10: the W = 4 `forwardAndBackward` reads `outputIds_[0]`
unconditionally after executing, so on a compiled graph with zero
declared outputs the access is out of bounds (undefined behaviour, not
guarded), while the gradient-storage count IS guarded and mismatches
throw. -/
theorem C10_zero_output_ub :
    ∀ (exec : Buffer → Buffer) (ad : Adapter) (seed : List Dbl) (gc : Nat),
      ad.kernel_.isSome = true → ad.buffer_.isSome = true →
      (ad.outputIds_ = [] → gc = ad.inputIds_.length →
        avxForwardAndBackward exec ad seed gc = .ub) ∧
      (gc ≠ ad.inputIds_.length →
        avxForwardAndBackward exec ad seed gc = .thrown) := by
  intro exec ad seed gc hk hb
  cases hkk : ad.kernel_ with
  | none => rw [hkk] at hk; cases hk
  | some k =>
    cases hbb : ad.buffer_ with
    | none => rw [hbb] at hb; cases hb
    | some b =>
      constructor
      · intro ho hgc
        simp only [avxForwardAndBackward, hkk, hbb, ho, hgc]
        rw [if_neg (fun hh => hh rfl)]
        rfl
      · intro hgc
        simp only [avxForwardAndBackward, hkk, hbb]
        rw [if_pos hgc]

/-- C10 witness: on the compiled zero-output AVX adapter, the call with a
correctly sized gradient buffer hits the out-of-bounds read, and the
call with a wrong gradient count throws the guarded error. -/
theorem C10_witness :
    avxForwardAndBackward id c10ad [1, 1, 1, 1] 1 = .ub ∧
    avxForwardAndBackward id c10ad [1, 1, 1, 1] 0 = .thrown :=
  ⟨(C10_zero_output_ub id c10ad [1, 1, 1, 1] 1 (by decide) (by decide)).1
     (by decide) (by decide),
   (C10_zero_output_ub id c10ad [1, 1, 1, 1] 0 (by decide) (by decide)).2
     (by decide)⟩
